import Mathlib

/-!
Verification development for the reminder/notification scheduling engine of the
family task-management application.

The embedded code is `lib/reminder-scheduler.ts` (the `reminderScheduler`
service: `processDueReminders`, `processDailyDigests`, `getReminderStats`)
together with the `Chore` model's pre-save hook from `models/Chore.ts`.

Modelling conventions:
- timestamps are integers counting milliseconds since the epoch (`Int`), so
  `Date.getTime()` arithmetic is exact integer arithmetic;
- JavaScript `Math.ceil(x / d)` on a millisecond difference is the exact
  ceiling of the rational division, modelled with integer ceiling division;
- the MongoDB stores are association lists of documents; queries are filters;
- the outbound notification dispatcher is an oracle mapping each send attempt
  to one of success / reported failure / thrown exception;
- a scheduler pass is a sequential fold over the fetched candidates that
  threads the preference store and emits one event per processed candidate,
  mirroring the sequential `for ... of` loops with per-item `try/catch`.
-/

namespace ReminderScheduler

/-- Milliseconds in one minute. -/
def msPerMinute : Int := 60000

/-- Milliseconds in one hour (`1000 * 60 * 60`). -/
def msPerHour : Int := 3600000

/-- Milliseconds in one day (`1000 * 60 * 60 * 24`). -/
def msPerDay : Int := 86400000

/-- Chore lifecycle status, from the `status` enum of `models/Chore.ts`. -/
inductive ChoreStatus
  | pending
  | in_progress
  | completed
  | verified
  | rejected
deriving DecidableEq, Repr

/-- A chore document, with the fields the reminder scheduler and the pre-save
hook read.  `id`, `family`, `assignedTo` are object ids, modelled as naturals;
`assignedTo` and `dueDate` are nullable as in the schema.
Modelled from the spec: the `points` field (the task's point value) and the
`photoPending` flag (the photo-verification sub-state being "pending") are
read by the scheduler (`chore.points`, `photoVerification.status`) but are
absent from the `Chore` schema under `src/models/Chore.ts`; they follow the
spec's Task data model (point value; photo-verification sub-state). -/
structure Chore where
  id : Nat
  family : Nat
  assignedTo : Option Nat
  dueDate : Option Int
  status : ChoreStatus
  completedAt : Option Int
  verifiedAt : Option Int
  points : Int
  photoPending : Bool
deriving DecidableEq, Repr

/-- A `NotificationPreferences` document for one (user, family) pair.
Modelled from the spec: the `NotificationPreferences` model itself is not under
`src/`; its fields follow the spec's data model — channel flags
(`email.enabled`, `email.choreReminders`, `email.dailyDigest`), reminder lead
times (`firstReminder`/`secondReminder` in days, `finalReminder` in hours), a
quiet-hours window (start/end as minutes of the day), the daily digest
delivery time (minutes of the day, i.e. the "HH:MM" string), and the per
category last-sent timestamps `lastNotifications.choreReminder` and
`lastNotifications.dailyDigest`. -/
structure PrefDoc where
  user : Nat
  family : Nat
  emailEnabled : Bool
  choreReminders : Bool
  dailyDigest : Bool
  firstReminder : Int
  secondReminder : Int
  finalReminder : Int
  quietStart : Int
  quietEnd : Int
  dailyDigestTime : Int
  lastChoreReminder : Option Int
  lastDailyDigest : Option Int
deriving DecidableEq, Repr

/-- Modelled from the spec: the default preference record that the missing
`NotificationPreferences.getOrCreatePreferences` creates lazily on first
access ("one record per (user, family) pair, created lazily on first
access"); email and reminders enabled, no prior notifications. -/
def defaultPrefs (u f : Nat) : PrefDoc :=
  { user := u
  , family := f
  , emailEnabled := true
  , choreReminders := true
  , dailyDigest := false
  , firstReminder := 3
  , secondReminder := 1
  , finalReminder := 2
  , quietStart := 0
  , quietEnd := 0
  , dailyDigestTime := 0
  , lastChoreReminder := none
  , lastDailyDigest := none }

/-- Whether a preference document belongs to the (user, family) key. -/
def keyMatch (u f : Nat) (p : PrefDoc) : Bool :=
  p.user == u && p.family == f

/-- Modelled from the spec: `NotificationPreferences.getOrCreatePreferences`
(not under `src/`) — fetch the (user, family) record, creating the default
lazily when absent. -/
def getOrCreatePreferences (store : List PrefDoc) (u f : Nat) : PrefDoc :=
  (store.find? (keyMatch u f)).getD (defaultPrefs u f)

/-- Modelled from the spec: `preferences.updateLastNotification("choreReminder")`
(not under `src/`) — persist `lastNotifications.choreReminder := now` on the
(user, family) record, creating it if it was produced lazily. -/
def setLastChoreReminder (store : List PrefDoc) (u f : Nat) (t : Int) :
    List PrefDoc :=
  if store.any (keyMatch u f) then
    store.map (fun p =>
      if keyMatch u f p then { p with lastChoreReminder := some t } else p)
  else
    store ++ [{ defaultPrefs u f with lastChoreReminder := some t }]

/-- Modelled from the spec: `pref.updateLastNotification("dailyDigest")`
(not under `src/`) — persist `lastNotifications.dailyDigest := now`. -/
def setLastDailyDigest (store : List PrefDoc) (u f : Nat) (t : Int) :
    List PrefDoc :=
  if store.any (keyMatch u f) then
    store.map (fun p =>
      if keyMatch u f p then { p with lastDailyDigest := some t } else p)
  else
    store ++ [{ defaultPrefs u f with lastDailyDigest := some t }]

/-- Minute of the day of a timestamp (the "HH:MM" part, as minutes). -/
def minuteOfDay (t : Int) : Int :=
  (t / msPerMinute) % 1440

/-- Calendar day index of a timestamp (the ISO date part of the instant). -/
def dayOf (t : Int) : Int :=
  t / msPerDay

/-- Modelled from the spec: `preferences.isNotificationAllowed()` (not under
`src/`) — the quiet-hours gate: a notification is allowed unless the current
time of day falls inside the configured window `[quietStart, quietEnd)`. -/
def isNotificationAllowed (p : PrefDoc) (now : Int) : Bool :=
  if p.quietStart ≤ minuteOfDay now ∧ minuteOfDay now < p.quietEnd then
    false
  else
    true

/-- Integer ceiling division for a positive divisor: the exact value of
JavaScript `Math.ceil(a / b)`. -/
def ceilDiv (a b : Int) : Int :=
  -((-a) / b)

/-- `Math.ceil((chore.dueDate.getTime() - now.getTime()) / (1000*60*60*24))`
from `processDueReminders`. -/
def daysUntilDue (due now : Int) : Int :=
  ceilDiv (due - now) msPerDay

/-- The `status: { $in: ["pending", "in_progress"] }` query condition. -/
def isCandidateStatus (s : ChoreStatus) : Bool :=
  s == .pending || s == .in_progress

/-- The candidate query of `processDueReminders`:
`dueDate: { $gte: now, $lte: oneDayFromNow }`, status pending/in-progress,
`assignedTo: { $exists: true, $ne: null }`. -/
def findChoresDueForReminders (chores : List Chore) (now : Int) : List Chore :=
  chores.filter (fun c =>
    (match c.dueDate with
     | some d => decide (now ≤ d) && decide (d ≤ now + msPerDay)
     | none => false)
    && isCandidateStatus c.status
    && c.assignedTo.isSome)

/-- The `shouldSendReminder` decision of `processDueReminders`: the
else-if chain over `daysUntilDue`, the two lead-time equalities and the
final-reminder hour window. -/
def shouldSendReminder (due now first second finalH : Int) : Bool :=
  let d := daysUntilDue due now
  if d ≤ 0 then true
  else if d = first then true
  else if d = second then true
  else if d = 0 ∧ due - now ≤ finalH * msPerHour then true
  else false

/-- Outcome of one call to the outbound notification dispatcher: the reported
`{ success: true }`, the reported `{ success: false }`, or a thrown error
(caught by the per-item `try/catch`). -/
inductive DispatchOutcome
  | ok
  | failed
  | thrown
deriving DecidableEq, Repr

/-- One observable event of a `processDueReminders` pass, one per processed
candidate chore, mirroring the branches of the loop body. -/
inductive RemEvent
  | skippedPrefs (choreId : Nat)
  | skippedQuiet (choreId : Nat)
  | notDue (choreId : Nat)
  | rateLimited (choreId : Nat)
  | sent (choreId userId familyId : Nat) (time : Int)
  | sendFailed (choreId userId familyId : Nat)
  | itemError (choreId : Nat)
deriving DecidableEq, Repr

/-- The dispatch-and-bookkeeping tail of the reminder loop body: send through
the dispatcher; on success persist `lastNotifications.choreReminder := now`;
on reported failure log and leave the store untouched; a thrown error is
caught by the per-item handler. -/
def attemptReminderDispatch (now : Int) (dispatch : Nat → DispatchOutcome)
    (store : List PrefDoc) (choreId u f : Nat) :
    List PrefDoc × List RemEvent :=
  match dispatch choreId with
  | .ok => (setLastChoreReminder store u f now, [.sent choreId u f now])
  | .failed => (store, [.sendFailed choreId u f])
  | .thrown => (store, [.itemError choreId])

/-- The body of the `for (const chore of choresDueForReminders)` loop:
fetch preferences, check the channel/category toggles, the quiet-hours gate,
the trigger decision, the 12-hour rate limit, then dispatch. -/
def processChoreStep (now : Int) (dispatch : Nat → DispatchOutcome)
    (store : List PrefDoc) (c : Chore) : List PrefDoc × List RemEvent :=
  match c.assignedTo, c.dueDate with
  | some u, some due =>
    let p := getOrCreatePreferences store u c.family
    if !(p.emailEnabled && p.choreReminders) then
      (store, [.skippedPrefs c.id])
    else if !(isNotificationAllowed p now) then
      (store, [.skippedQuiet c.id])
    else if shouldSendReminder due now p.firstReminder p.secondReminder
        p.finalReminder then
      match p.lastChoreReminder with
      | some t =>
        if now - t < 12 * msPerHour then
          (store, [.rateLimited c.id])
        else
          attemptReminderDispatch now dispatch store c.id u c.family
      | none => attemptReminderDispatch now dispatch store c.id u c.family
    else
      (store, [.notDue c.id])
  | _, _ => (store, [.itemError c.id])

/-- Sequential processing of the fetched candidates, threading the preference
store and concatenating the per-item events. -/
def runReminderPass (now : Int) (dispatch : Nat → DispatchOutcome)
    (store : List PrefDoc) : List Chore → List PrefDoc × List RemEvent
  | [] => (store, [])
  | c :: rest =>
    let r := processChoreStep now dispatch store c
    let r2 := runReminderPass now dispatch r.1 rest
    (r2.1, r.2 ++ r2.2)

/-- `reminderScheduler.processDueReminders`: fetch the candidate chores and
process them sequentially. -/
def processDueReminders (chores : List Chore) (now : Int)
    (dispatch : Nat → DispatchOutcome) (store : List PrefDoc) :
    List PrefDoc × List RemEvent :=
  runReminderPass now dispatch store (findChoresDueForReminders chores now)

/-- `processDueReminders` with its top-level `try/catch`: a data-access
failure while connecting or fetching aborts the whole pass — it is logged and
the pass ends with no dispatches and the store untouched. -/
def processDueRemindersTop (conn : Except String Unit) (chores : List Chore)
    (now : Int) (dispatch : Nat → DispatchOutcome) (store : List PrefDoc) :
    List PrefDoc × List RemEvent :=
  match conn with
  | .error _ => (store, [])
  | .ok _ => processDueReminders chores now dispatch store

/-- The digest payload built by `processDailyDigests`; the completed and
overdue sets are kept as chore lists (the code maps them to title records of
the same length and sums `points` over the completed set). -/
structure DigestPayload where
  completedChores : List Chore
  overdueChores : List Chore
  pendingApprovals : Nat
  totalPointsEarned : Int
deriving DecidableEq, Repr

/-- `yesterdayStart`: start of the previous calendar day (00:00:00.000). -/
def yesterdayStart (now : Int) : Int :=
  (dayOf now - 1) * msPerDay

/-- `todayEnd`: end of the current calendar day (23:59:59.999). -/
def todayEnd (now : Int) : Int :=
  dayOf now * msPerDay + msPerDay - 1

/-- The completed-chores query of the digest: family scoped, status
completed/verified, `completedAt: { $gte: yesterdayStart, $lte: todayEnd }`. -/
def completedInWindow (chores : List Chore) (fam : Nat) (now : Int) :
    List Chore :=
  chores.filter (fun c =>
    c.family == fam
    && (c.status == .completed || c.status == .verified)
    && (match c.completedAt with
        | some t => decide (yesterdayStart now ≤ t) && decide (t ≤ todayEnd now)
        | none => false))

/-- The overdue-chores query of the digest: family scoped,
`dueDate: { $lt: now }`, status pending/in-progress (no lower time bound). -/
def overdueForDigest (chores : List Chore) (fam : Nat) (now : Int) :
    List Chore :=
  chores.filter (fun c =>
    c.family == fam
    && (match c.dueDate with
        | some d => decide (d < now)
        | none => false)
    && isCandidateStatus c.status)

/-- The pending-approval count of the digest: family-scoped count of chores
whose photo-verification sub-state is "pending". -/
def pendingApprovalCount (chores : List Chore) (fam : Nat) : Nat :=
  (chores.filter (fun c => c.family == fam && c.photoPending)).length

/-- The digest aggregation of `processDailyDigests` for one family:
completed set, overdue set, pending approvals and the `reduce` summing the
points of the completed set. -/
def buildDigest (chores : List Chore) (fam : Nat) (now : Int) : DigestPayload :=
  let comp := completedInWindow chores fam now
  { completedChores := comp
  , overdueChores := overdueForDigest chores fam now
  , pendingApprovals := pendingApprovalCount chores fam
  , totalPointsEarned := comp.foldl (fun total c => total + c.points) 0 }

/-- One observable event of a `processDailyDigests` pass, one per candidate
preference document. -/
inductive DigEvent
  | alreadySentToday (userId familyId : Nat)
  | skippedQuiet (userId familyId : Nat)
  | sent (userId familyId : Nat) (time : Int) (payload : DigestPayload)
  | sendFailed (userId familyId : Nat)
  | itemError (userId familyId : Nat)
deriving DecidableEq, Repr

/-- The candidate query of `processDailyDigests`: preference documents with
`email.enabled`, `email.dailyDigest` and `dailyDigestTime` equal to the
current evaluation time's HH:MM. -/
def findDigestCandidates (store : List PrefDoc) (now : Int) : List PrefDoc :=
  store.filter (fun p =>
    p.emailEnabled && p.dailyDigest && p.dailyDigestTime == minuteOfDay now)

/-- The digest loop body after the already-sent-today guard: quiet hours,
aggregation, dispatch, and timestamp bookkeeping on success. -/
def digestDispatchPart (chores : List Chore) (now : Int)
    (dispatch : Nat × Nat → DispatchOutcome) (store : List PrefDoc)
    (p : PrefDoc) : List PrefDoc × List DigEvent :=
  if !(isNotificationAllowed p now) then
    (store, [.skippedQuiet p.user p.family])
  else
    let payload := buildDigest chores p.family now
    match dispatch (p.user, p.family) with
    | .ok =>
      (setLastDailyDigest store p.user p.family now,
       [.sent p.user p.family now payload])
    | .failed => (store, [.sendFailed p.user p.family])
    | .thrown => (store, [.itemError p.user p.family])

/-- The body of the `for (const pref of preferences)` digest loop: the
already-sent-today guard compares the calendar date of
`lastNotifications.dailyDigest` with today's date (ISO date strings), then the
quiet-hours gate, aggregation and dispatch.  The guard reads the document
fetched at the start of the pass. -/
def processDigestStep (chores : List Chore) (now : Int)
    (dispatch : Nat × Nat → DispatchOutcome) (store : List PrefDoc)
    (p : PrefDoc) : List PrefDoc × List DigEvent :=
  match p.lastDailyDigest with
  | some t =>
    if dayOf t = dayOf now then
      (store, [.alreadySentToday p.user p.family])
    else
      digestDispatchPart chores now dispatch store p
  | none => digestDispatchPart chores now dispatch store p

/-- Sequential processing of the digest candidates (the list fetched once at
the start of the pass), threading the preference store for updates. -/
def runDigestPass (chores : List Chore) (now : Int)
    (dispatch : Nat × Nat → DispatchOutcome) (store : List PrefDoc) :
    List PrefDoc → List PrefDoc × List DigEvent
  | [] => (store, [])
  | p :: rest =>
    let r := processDigestStep chores now dispatch store p
    let r2 := runDigestPass chores now dispatch r.1 rest
    (r2.1, r.2 ++ r2.2)

/-- `reminderScheduler.processDailyDigests`: fetch the candidate preference
documents at the current HH:MM and process them sequentially. -/
def processDailyDigests (chores : List Chore) (now : Int)
    (dispatch : Nat × Nat → DispatchOutcome) (store : List PrefDoc) :
    List PrefDoc × List DigEvent :=
  runDigestPass chores now dispatch store (findDigestCandidates store now)

/-- `processDailyDigests` with its top-level `try/catch`: a data-access
failure aborts the whole pass with no dispatches and the store untouched. -/
def processDailyDigestsTop (conn : Except String Unit) (chores : List Chore)
    (now : Int) (dispatch : Nat × Nat → DispatchOutcome)
    (store : List PrefDoc) : List PrefDoc × List DigEvent :=
  match conn with
  | .error _ => (store, [])
  | .ok _ => processDailyDigests chores now dispatch store

/-- The counts returned by `reminderScheduler.getReminderStats`. -/
structure ReminderStats where
  choresDueToday : Nat
  choresDueThisWeek : Nat
  overdueChores : Nat
  usersWithRemindersEnabled : Nat
  usersWithDailyDigest : Nat
deriving DecidableEq, Repr

/-- The optional family scope of `getReminderStats`. -/
def famMatch (q : Option Nat) (f : Nat) : Bool :=
  match q with
  | some x => f == x
  | none => true

/-- `reminderScheduler.getReminderStats`: read-only counts; any fatal query
failure is caught and `null` is returned. -/
def getReminderStats (conn : Except String Unit) (chores : List Chore)
    (store : List PrefDoc) (now : Int) (familyId : Option Nat) :
    Option ReminderStats :=
  match conn with
  | .error _ => none
  | .ok _ => some
    { choresDueToday := (chores.filter (fun c =>
        famMatch familyId c.family
        && (match c.dueDate with
            | some d => decide (now ≤ d) && decide (d < now + msPerDay)
            | none => false)
        && isCandidateStatus c.status)).length
    , choresDueThisWeek := (chores.filter (fun c =>
        famMatch familyId c.family
        && (match c.dueDate with
            | some d => decide (now ≤ d) && decide (d < now + 7 * msPerDay)
            | none => false)
        && isCandidateStatus c.status)).length
    , overdueChores := (chores.filter (fun c =>
        famMatch familyId c.family
        && (match c.dueDate with
            | some d => decide (d < now)
            | none => false)
        && isCandidateStatus c.status)).length
    , usersWithRemindersEnabled := (store.filter (fun p =>
        famMatch familyId p.family && p.emailEnabled && p.choreReminders)).length
    , usersWithDailyDigest := (store.filter (fun p =>
        famMatch familyId p.family && p.emailEnabled && p.dailyDigest)).length }

/-- The pre-save hook of `models/Chore.ts`: when the save modified `status`,
fill `completedAt` for a completed chore without one, and `verifiedAt` for a
verified chore without one. -/
def choreSavePreHook (c : Chore) (statusModified : Bool) (now : Int) : Chore :=
  let c1 :=
    if statusModified && c.status == .completed && c.completedAt == none then
      { c with completedAt := some now }
    else
      c
  if statusModified && c1.status == .verified && c1.verifiedAt == none then
    { c1 with verifiedAt := some now }
  else
    c1

/-- The chore timestamp invariant of the spec, as a decidable check:
`completedAt` set iff status is completed or verified, and `verifiedAt` set
only if status is verified, `completedAt` is set and `completedAt` is at most
`verifiedAt`. -/
def choreInvariant (c : Chore) : Bool :=
  (c.completedAt.isSome == (c.status == .completed || c.status == .verified))
  && (match c.verifiedAt with
      | none => true
      | some v =>
        (c.status == .verified)
        && (match c.completedAt with
            | some t => decide (t ≤ v)
            | none => false))

/-- Key predicate selecting exactly the (user, family) pair. -/
def keyEq (u f : Nat) : Nat → Nat → Bool :=
  fun a b => a == u && b == f

/-- Key predicate selecting every record of one user. -/
def userEq (u : Nat) : Nat → Nat → Bool :=
  fun a _ => a == u

/-- Whether a reminder event is a successful dispatch whose key satisfies the
key predicate. -/
def remSentIn (kb : Nat → Nat → Bool) : RemEvent → Bool
  | .sent _ u2 f2 _ => kb u2 f2
  | _ => false

/-- Whether a digest event is a successful dispatch whose key satisfies the
key predicate. -/
def digSentIn (kb : Nat → Nat → Bool) : DigEvent → Bool
  | .sent u2 f2 _ _ => kb u2 f2
  | _ => false

/-- Number of successful reminder dispatches recorded for a (user, family)
pair. -/
def countRemSent (u f : Nat) (evs : List RemEvent) : Nat :=
  evs.countP (remSentIn (keyEq u f))

/-- Number of successful reminder dispatches recorded for a user, over all of
the user's families. -/
def countRemSentUser (u : Nat) (evs : List RemEvent) : Nat :=
  evs.countP (remSentIn (userEq u))

/-- Number of successful digest dispatches recorded for a (user, family)
pair. -/
def countDigSent (u f : Nat) (evs : List DigEvent) : Nat :=
  evs.countP (digSentIn (keyEq u f))

/-- Number of successful digest dispatches recorded for a user. -/
def countDigSentUser (u : Nat) (evs : List DigEvent) : Nat :=
  evs.countP (digSentIn (userEq u))

/-- A preference record is skipped by the reminder loop before any dispatch
attempt when the channel or category toggle is off, the quiet-hours gate is
closed, or the 12-hour rate limit applies. -/
def skipCond (p : PrefDoc) (now : Int) : Prop :=
  (p.emailEnabled && p.choreReminders) = false
  ∨ isNotificationAllowed p now = false
  ∨ ∃ t, p.lastChoreReminder = some t ∧ now - t < 12 * msPerHour

/-- A candidate digest record is skipped before any dispatch attempt when its
last digest was sent on the current calendar day or the quiet-hours gate is
closed. -/
def digSkip (now : Int) (p : PrefDoc) : Prop :=
  (∃ t, p.lastDailyDigest = some t ∧ dayOf t = dayOf now)
  ∨ isNotificationAllowed p now = false

/-- The preference store holds at most one record per (user, family) pair
(the spec's "one record per pair"). -/
def NodupKeys (store : List PrefDoc) : Prop :=
  (store.map (fun p => (p.user, p.family))).Nodup

/-- Every record of the (user, family) pair in the store carries the given
`lastNotifications.dailyDigest` timestamp. -/
def allKeyDigestAt (store : List PrefDoc) (u f : Nat) (t : Int) : Prop :=
  ∀ p ∈ store, p.user = u → p.family = f → p.lastDailyDigest = some t

lemma keyMatch_iff (u f : Nat) (p : PrefDoc) :
    keyMatch u f p = true ↔ p.user = u ∧ p.family = f := by
  simp [keyMatch]

lemma getOrCreate_user (store : List PrefDoc) (u f : Nat) :
    (getOrCreatePreferences store u f).user = u
      ∧ (getOrCreatePreferences store u f).family = f := by
  unfold getOrCreatePreferences
  cases h : store.find? (keyMatch u f) with
  | none => simp [defaultPrefs]
  | some p =>
    have hp := List.find?_some h
    rw [keyMatch_iff] at hp
    simp [hp]

lemma find?_map_keyUpdate (u f : Nat) (g : PrefDoc → PrefDoc)
    (hg : ∀ p, (g p).user = p.user ∧ (g p).family = p.family)
    (store : List PrefDoc) :
    (store.map (fun p => if keyMatch u f p then g p else p)).find? (keyMatch u f)
      = (store.find? (keyMatch u f)).map g := by
  induction store with
  | nil => rfl
  | cons p rest ih =>
    by_cases h : keyMatch u f p = true
    · have hpg : keyMatch u f (g p) = true := by
        rw [keyMatch_iff] at h ⊢
        rcases hg p with ⟨h1, h2⟩
        exact ⟨h1.trans h.1, h2.trans h.2⟩
      rw [List.map_cons, if_pos h, List.find?_cons_of_pos _ hpg,
        List.find?_cons_of_pos _ h]
      rfl
    · rw [List.map_cons, if_neg h, List.find?_cons_of_neg _ h,
        List.find?_cons_of_neg _ h, ih]

lemma find?_map_keyUpdate_other (u f u2 f2 : Nat) (g : PrefDoc → PrefDoc)
    (hne : ¬(u2 = u ∧ f2 = f))
    (hg : ∀ p, (g p).user = p.user ∧ (g p).family = p.family)
    (store : List PrefDoc) :
    (store.map (fun p => if keyMatch u2 f2 p then g p else p)).find? (keyMatch u f)
      = store.find? (keyMatch u f) := by
  induction store with
  | nil => rfl
  | cons p rest ih =>
    by_cases h2 : keyMatch u2 f2 p = true
    · have hkey : ¬(keyMatch u f p = true) := by
        rw [keyMatch_iff] at h2 ⊢
        intro hc
        exact hne ⟨h2.1.symm.trans hc.1, h2.2.symm.trans hc.2⟩
      have hkeyg : ¬(keyMatch u f (g p) = true) := by
        rw [keyMatch_iff]
        rcases hg p with ⟨h1, h2g⟩
        rw [h1, h2g]
        rw [keyMatch_iff] at hkey
        exact hkey
      rw [List.map_cons, if_pos h2, List.find?_cons_of_neg _ hkeyg,
        List.find?_cons_of_neg _ hkey, ih]
    · by_cases h : keyMatch u f p = true
      · rw [List.map_cons, if_neg h2, List.find?_cons_of_pos _ h,
          List.find?_cons_of_pos _ h]
      · rw [List.map_cons, if_neg h2, List.find?_cons_of_neg _ h,
          List.find?_cons_of_neg _ h, ih]

lemma getOrCreate_setLastChoreReminder_same (store : List PrefDoc)
    (u f : Nat) (t : Int) :
    getOrCreatePreferences (setLastChoreReminder store u f t) u f
      = { getOrCreatePreferences store u f with lastChoreReminder := some t } := by
  unfold setLastChoreReminder getOrCreatePreferences
  by_cases hany : store.any (keyMatch u f) = true
  · rw [if_pos hany,
      find?_map_keyUpdate u f (fun p => { p with lastChoreReminder := some t })
        (fun p => ⟨rfl, rfl⟩)]
    cases h : store.find? (keyMatch u f) with
    | none =>
      exfalso
      rcases List.any_eq_true.mp hany with ⟨x, hx, hpx⟩
      exact (List.find?_eq_none.mp h x hx) hpx
    | some p => rfl
  · rw [if_neg hany]
    have hnone : store.find? (keyMatch u f) = none := by
      rw [List.find?_eq_none]
      intro x hx hpx
      exact hany (List.any_eq_true.mpr ⟨x, hx, hpx⟩)
    have hnew : keyMatch u f { defaultPrefs u f with lastChoreReminder := some t }
        = true := by
      rw [keyMatch_iff]
      exact ⟨rfl, rfl⟩
    rw [List.find?_append, hnone, Option.none_or,
      List.find?_cons_of_pos _ hnew]
    rfl

lemma getOrCreate_setLastChoreReminder_other (store : List PrefDoc)
    (u f u2 f2 : Nat) (t : Int) (hne : ¬(u = u2 ∧ f = f2)) :
    getOrCreatePreferences (setLastChoreReminder store u f t) u2 f2
      = getOrCreatePreferences store u2 f2 := by
  unfold setLastChoreReminder getOrCreatePreferences
  by_cases hany : store.any (keyMatch u f) = true
  · rw [if_pos hany,
      find?_map_keyUpdate_other u2 f2 u f
        (fun p => { p with lastChoreReminder := some t })
        hne (fun p => ⟨rfl, rfl⟩)]
  · rw [if_neg hany]
    have hnew : ¬(keyMatch u2 f2 { defaultPrefs u f with lastChoreReminder := some t }
        = true) := by
      rw [keyMatch_iff]
      intro hc
      exact hne ⟨hc.1, hc.2⟩
    rw [List.find?_append, List.find?_cons_of_neg _ hnew]
    cases h : store.find? (keyMatch u2 f2) <;> rfl

lemma getOrCreate_setLastDailyDigest_same (store : List PrefDoc)
    (u f : Nat) (t : Int) :
    getOrCreatePreferences (setLastDailyDigest store u f t) u f
      = { getOrCreatePreferences store u f with lastDailyDigest := some t } := by
  unfold setLastDailyDigest getOrCreatePreferences
  by_cases hany : store.any (keyMatch u f) = true
  · rw [if_pos hany,
      find?_map_keyUpdate u f (fun p => { p with lastDailyDigest := some t })
        (fun p => ⟨rfl, rfl⟩)]
    cases h : store.find? (keyMatch u f) with
    | none =>
      exfalso
      rcases List.any_eq_true.mp hany with ⟨x, hx, hpx⟩
      exact (List.find?_eq_none.mp h x hx) hpx
    | some p => rfl
  · rw [if_neg hany]
    have hnone : store.find? (keyMatch u f) = none := by
      rw [List.find?_eq_none]
      intro x hx hpx
      exact hany (List.any_eq_true.mpr ⟨x, hx, hpx⟩)
    have hnew : keyMatch u f { defaultPrefs u f with lastDailyDigest := some t }
        = true := by
      rw [keyMatch_iff]
      exact ⟨rfl, rfl⟩
    rw [List.find?_append, hnone, Option.none_or,
      List.find?_cons_of_pos _ hnew]
    rfl

lemma reminderStep_cases (now : Int) (d : Nat → DispatchOutcome)
    (store : List PrefDoc) (c : Chore) :
    ((processChoreStep now d store c).1 = store
      ∧ ∀ cid u2 f2 t, RemEvent.sent cid u2 f2 t ∉ (processChoreStep now d store c).2)
    ∨ ∃ u, c.assignedTo = some u
        ∧ processChoreStep now d store c
            = (setLastChoreReminder store u c.family now,
               [RemEvent.sent c.id u c.family now]) := by
  unfold processChoreStep attemptReminderDispatch
  rcases hA : c.assignedTo with _ | u
  · rcases hD : c.dueDate with _ | due <;> simp [hA, hD]
  · rcases hD : c.dueDate with _ | due
    · simp [hA, hD]
    · simp only [hA, hD]
      split
      · simp
      · split
        · simp
        · split
          · split
            · split
              · simp
              · split <;> simp
            · split <;> simp
          · simp

lemma reminderStep_blocked (now : Int) (d : Nat → DispatchOutcome)
    (store : List PrefDoc) (c : Chore) (u : Nat)
    (hu : c.assignedTo = some u)
    (hblk : skipCond (getOrCreatePreferences store u c.family) now) :
    (processChoreStep now d store c).1 = store
      ∧ ∀ cid u2 f2 t, RemEvent.sent cid u2 f2 t ∉ (processChoreStep now d store c).2 := by
  unfold processChoreStep attemptReminderDispatch
  rcases hD : c.dueDate with _ | due
  · simp [hu, hD]
  · simp only [hu, hD]
    split
    · simp
    · split
      · simp
      · split
        · split
          · split
            · simp
            · exfalso
              rcases hblk with hb | hb | ⟨t0, ht0, hlt⟩ <;> simp_all
              omega
          · exfalso
            rcases hblk with hb | hb | ⟨t0, ht0, hlt⟩ <;> simp_all
        · simp

lemma getOrCreate_setLastDailyDigest_other (store : List PrefDoc)
    (u f u2 f2 : Nat) (t : Int) (hne : ¬(u = u2 ∧ f = f2)) :
    getOrCreatePreferences (setLastDailyDigest store u f t) u2 f2
      = getOrCreatePreferences store u2 f2 := by
  unfold setLastDailyDigest getOrCreatePreferences
  by_cases hany : store.any (keyMatch u f) = true
  · rw [if_pos hany,
      find?_map_keyUpdate_other u2 f2 u f
        (fun p => { p with lastDailyDigest := some t })
        hne (fun p => ⟨rfl, rfl⟩)]
  · rw [if_neg hany]
    have hnew : ¬(keyMatch u2 f2 { defaultPrefs u f with lastDailyDigest := some t }
        = true) := by
      rw [keyMatch_iff]
      intro hc
      exact hne ⟨hc.1, hc.2⟩
    rw [List.find?_append, List.find?_cons_of_neg _ hnew]
    cases h : store.find? (keyMatch u2 f2) <;> rfl

lemma runReminderPass_cons (now : Int) (d : Nat → DispatchOutcome)
    (store : List PrefDoc) (c : Chore) (rest : List Chore) :
    runReminderPass now d store (c :: rest)
      = ((runReminderPass now d (processChoreStep now d store c).1 rest).1,
         (processChoreStep now d store c).2
           ++ (runReminderPass now d (processChoreStep now d store c).1 rest).2) :=
  rfl

lemma countP_remSent_zero (kb : Nat → Nat → Bool) (evs : List RemEvent)
    (h : ∀ cid u2 f2 t, RemEvent.sent cid u2 f2 t ∉ evs) :
    evs.countP (remSentIn kb) = 0 := by
  rw [List.countP_eq_zero]
  intro e he
  cases e
  case sent cid u2 f2 t => exact absurd he (h cid u2 f2 t)
  all_goals simp [remSentIn]

lemma reminderPass_blocked (now : Int) (d : Nat → DispatchOutcome)
    (kb : Nat → Nat → Bool) :
    ∀ (cs : List Chore) (store : List PrefDoc),
      (∀ c ∈ cs, ∀ u, c.assignedTo = some u → kb u c.family = true →
          skipCond (getOrCreatePreferences store u c.family) now) →
      (runReminderPass now d store cs).2.countP (remSentIn kb) = 0
        ∧ ∀ u2 f2, kb u2 f2 = true →
            getOrCreatePreferences (runReminderPass now d store cs).1 u2 f2
              = getOrCreatePreferences store u2 f2 := by
  intro cs
  induction cs with
  | nil =>
    intro store h
    exact ⟨rfl, fun u2 f2 _ => rfl⟩
  | cons c rest ih =>
    intro store hblk
    rcases reminderStep_cases now d store c with ⟨hst, hnos⟩ | ⟨u, hu, heq⟩
    · rw [runReminderPass_cons, hst]
      obtain ⟨ih1, ih2⟩ :=
        ih store (fun c2 hc2 => hblk c2 (List.mem_cons_of_mem _ hc2))
      refine ⟨?_, fun u2 f2 hk => ih2 u2 f2 hk⟩
      simp [List.countP_append, countP_remSent_zero kb _ hnos, ih1]
    · by_cases hk : kb u c.family = true
      · exfalso
        have hb := reminderStep_blocked now d store c u hu
          (hblk c (List.mem_cons_self c rest) u hu hk)
        rw [heq] at hb
        exact hb.2 c.id u c.family now (List.mem_singleton.mpr rfl)
      · have hpres : ∀ u2 f2, kb u2 f2 = true →
            getOrCreatePreferences (setLastChoreReminder store u c.family now) u2 f2
              = getOrCreatePreferences store u2 f2 := by
          intro u2 f2 hk2
          refine getOrCreate_setLastChoreReminder_other store u c.family u2 f2 now ?_
          rintro ⟨h1, h2⟩
          rw [h1, h2] at hk
          exact hk hk2
        have hblk2 : ∀ c2 ∈ rest, ∀ u2, c2.assignedTo = some u2 →
            kb u2 c2.family = true →
            skipCond (getOrCreatePreferences
              (setLastChoreReminder store u c.family now) u2 c2.family) now := by
          intro c2 hc2 u2 hu2 hk2
          rw [hpres u2 c2.family hk2]
          exact hblk c2 (List.mem_cons_of_mem _ hc2) u2 hu2 hk2
        obtain ⟨ih1, ih2⟩ := ih (setLastChoreReminder store u c.family now) hblk2
        have hpass : runReminderPass now d store (c :: rest)
            = ((runReminderPass now d (setLastChoreReminder store u c.family now) rest).1,
               RemEvent.sent c.id u c.family now
                 :: (runReminderPass now d (setLastChoreReminder store u c.family now) rest).2) := by
          rw [runReminderPass_cons, heq]
          rfl
        rw [hpass]
        constructor
        · have hkf : kb u c.family = false := Bool.eq_false_iff.mpr hk
          simp [List.countP_cons, remSentIn, hkf, ih1]
        · intro u2 f2 hk2
          rw [ih2 u2 f2 hk2, hpres u2 f2 hk2]

lemma reminderPass_at_most_one (now : Int) (d : Nat → DispatchOutcome)
    (u f : Nat) :
    ∀ (cs : List Chore) (store : List PrefDoc),
      (runReminderPass now d store cs).2.countP (remSentIn (keyEq u f)) ≤ 1 := by
  intro cs
  induction cs with
  | nil =>
    intro store
    simp [runReminderPass]
  | cons c rest ih =>
    intro store
    rcases reminderStep_cases now d store c with ⟨hst, hnos⟩ | ⟨u2, hu2, heq⟩
    · rw [runReminderPass_cons, hst]
      simpa [List.countP_append, countP_remSent_zero _ _ hnos] using ih store
    · by_cases hk : keyEq u f u2 c.family = true
      · have hrl : skipCond (getOrCreatePreferences
            (setLastChoreReminder store u2 c.family now) u2 c.family) now := by
          right; right
          refine ⟨now, ?_, by unfold msPerHour; omega⟩
          rw [getOrCreate_setLastChoreReminder_same]
        have hblk2 : ∀ c2 ∈ rest, ∀ u3, c2.assignedTo = some u3 →
            keyEq u f u3 c2.family = true →
            skipCond (getOrCreatePreferences
              (setLastChoreReminder store u2 c.family now) u3 c2.family) now := by
          intro c2 hc2 u3 hu3 hk3
          have h1 : u3 = u ∧ c2.family = f := by simpa [keyEq] using hk3
          have h2 : u2 = u ∧ c.family = f := by simpa [keyEq] using hk
          rw [h1.1, h1.2, ← h2.1, ← h2.2]
          exact hrl
        have hmaster := reminderPass_blocked now d (keyEq u f) rest
          (setLastChoreReminder store u2 c.family now) hblk2
        rw [runReminderPass_cons, heq]
        simp [List.countP_append, hmaster.1, remSentIn, hk]
      · rw [runReminderPass_cons, heq]
        have hkf : keyEq u f u2 c.family = false := Bool.eq_false_iff.mpr hk
        simpa [List.countP_cons, remSentIn, hkf] using
          ih (setLastChoreReminder store u2 c.family now)

lemma runDigestPass_cons (chores : List Chore) (now : Int)
    (d : Nat × Nat → DispatchOutcome) (store : List PrefDoc) (p : PrefDoc)
    (rest : List PrefDoc) :
    runDigestPass chores now d store (p :: rest)
      = ((runDigestPass chores now d (processDigestStep chores now d store p).1 rest).1,
         (processDigestStep chores now d store p).2
           ++ (runDigestPass chores now d (processDigestStep chores now d store p).1 rest).2) :=
  rfl

lemma countP_digSent_zero (kb : Nat → Nat → Bool) (evs : List DigEvent)
    (h : ∀ u2 f2 t pay, DigEvent.sent u2 f2 t pay ∉ evs) :
    evs.countP (digSentIn kb) = 0 := by
  rw [List.countP_eq_zero]
  intro e he
  cases e
  case sent u2 f2 t pay => exact absurd he (h u2 f2 t pay)
  all_goals simp [digSentIn]

lemma digestStep_cases (chores : List Chore) (now : Int)
    (d : Nat × Nat → DispatchOutcome) (store : List PrefDoc) (p : PrefDoc) :
    ((processDigestStep chores now d store p).1 = store
      ∧ ∀ u2 f2 t pay,
          DigEvent.sent u2 f2 t pay ∉ (processDigestStep chores now d store p).2)
    ∨ processDigestStep chores now d store p
        = (setLastDailyDigest store p.user p.family now,
           [DigEvent.sent p.user p.family now (buildDigest chores p.family now)]) := by
  unfold processDigestStep digestDispatchPart
  split
  · split
    · simp
    · split
      · simp
      · split <;> simp
  · split
    · simp
    · split <;> simp

lemma digestStep_blocked (chores : List Chore) (now : Int)
    (d : Nat × Nat → DispatchOutcome) (store : List PrefDoc) (p : PrefDoc)
    (h : digSkip now p) :
    (processDigestStep chores now d store p).1 = store
      ∧ ∀ u2 f2 t pay,
          DigEvent.sent u2 f2 t pay ∉ (processDigestStep chores now d store p).2 := by
  unfold processDigestStep digestDispatchPart
  split
  · split
    · simp
    · split
      · simp
      · exfalso
        rcases h with ⟨t0, ht0, hd⟩ | hq <;> simp_all
  · split
    · simp
    · exfalso
      rcases h with ⟨t0, ht0, hd⟩ | hq <;> simp_all

lemma digestPass_blocked (chores : List Chore) (now : Int)
    (d : Nat × Nat → DispatchOutcome) (kb : Nat → Nat → Bool) :
    ∀ (docs : List PrefDoc) (store : List PrefDoc),
      (∀ p ∈ docs, kb p.user p.family = true → digSkip now p) →
      (runDigestPass chores now d store docs).2.countP (digSentIn kb) = 0
        ∧ ∀ u2 f2, kb u2 f2 = true →
            getOrCreatePreferences (runDigestPass chores now d store docs).1 u2 f2
              = getOrCreatePreferences store u2 f2 := by
  intro docs
  induction docs with
  | nil =>
    intro store h
    exact ⟨rfl, fun _ _ _ => rfl⟩
  | cons p rest ih =>
    intro store hdocs
    by_cases hk : kb p.user p.family = true
    · have hstep := digestStep_blocked chores now d store p
        (hdocs p (List.mem_cons_self p rest) hk)
      rw [runDigestPass_cons, hstep.1]
      obtain ⟨ih1, ih2⟩ := ih store (fun q hq => hdocs q (List.mem_cons_of_mem _ hq))
      refine ⟨?_, fun u2 f2 hk2 => ih2 u2 f2 hk2⟩
      simp [List.countP_append, countP_digSent_zero kb _ hstep.2, ih1]
    · rcases digestStep_cases chores now d store p with ⟨hst, hnos⟩ | heq
      · rw [runDigestPass_cons, hst]
        obtain ⟨ih1, ih2⟩ := ih store (fun q hq => hdocs q (List.mem_cons_of_mem _ hq))
        refine ⟨?_, fun u2 f2 hk2 => ih2 u2 f2 hk2⟩
        simp [List.countP_append, countP_digSent_zero kb _ hnos, ih1]
      · have hpres : ∀ u2 f2, kb u2 f2 = true →
            getOrCreatePreferences (setLastDailyDigest store p.user p.family now) u2 f2
              = getOrCreatePreferences store u2 f2 := by
          intro u2 f2 hk2
          refine getOrCreate_setLastDailyDigest_other store p.user p.family u2 f2 now ?_
          rintro ⟨h1, h2⟩
          rw [h1, h2] at hk
          exact hk hk2
        obtain ⟨ih1, ih2⟩ :=
          ih (setLastDailyDigest store p.user p.family now)
            (fun q hq => hdocs q (List.mem_cons_of_mem _ hq))
        have hpass : runDigestPass chores now d store (p :: rest)
            = ((runDigestPass chores now d
                  (setLastDailyDigest store p.user p.family now) rest).1,
               DigEvent.sent p.user p.family now (buildDigest chores p.family now)
                 :: (runDigestPass chores now d
                      (setLastDailyDigest store p.user p.family now) rest).2) := by
          rw [runDigestPass_cons, heq]
          rfl
        rw [hpass]
        constructor
        · have hkf : kb p.user p.family = false := Bool.eq_false_iff.mpr hk
          simp [List.countP_cons, digSentIn, hkf, ih1]
        · intro u2 f2 hk2
          rw [ih2 u2 f2 hk2, hpres u2 f2 hk2]

lemma digestPass_count_le (chores : List Chore) (now : Int)
    (d : Nat × Nat → DispatchOutcome) (kb : Nat → Nat → Bool) :
    ∀ (docs : List PrefDoc) (store : List PrefDoc),
      (runDigestPass chores now d store docs).2.countP (digSentIn kb)
        ≤ docs.countP (fun p => kb p.user p.family) := by
  intro docs
  induction docs with
  | nil =>
    intro store
    simp [runDigestPass]
  | cons p rest ih =>
    intro store
    rcases digestStep_cases chores now d store p with ⟨hst, hnos⟩ | heq
    · have hle : (runDigestPass chores now d store (p :: rest)).2.countP (digSentIn kb)
          = (runDigestPass chores now d store rest).2.countP (digSentIn kb) := by
        rw [runDigestPass_cons, hst]
        simp [List.countP_append, countP_digSent_zero kb _ hnos]
      rw [hle, List.countP_cons]
      exact le_trans (ih store) (Nat.le_add_right _ _)
    · have hpass : runDigestPass chores now d store (p :: rest)
          = ((runDigestPass chores now d
                (setLastDailyDigest store p.user p.family now) rest).1,
             DigEvent.sent p.user p.family now (buildDigest chores p.family now)
               :: (runDigestPass chores now d
                    (setLastDailyDigest store p.user p.family now) rest).2) := by
        rw [runDigestPass_cons, heq]
        rfl
      rw [hpass, List.countP_cons, List.countP_cons]
      simp only [digSentIn]
      exact Nat.add_le_add (ih _) le_rfl

lemma setLastDailyDigest_allKey (store : List PrefDoc) (u f : Nat) (t : Int) :
    allKeyDigestAt (setLastDailyDigest store u f t) u f t := by
  intro p hp hu hf
  unfold setLastDailyDigest at hp
  by_cases hany : store.any (keyMatch u f) = true
  · rw [if_pos hany] at hp
    rcases List.mem_map.mp hp with ⟨q, hq, hqe⟩
    by_cases hqk : keyMatch u f q = true
    · rw [if_pos hqk] at hqe
      rw [← hqe]
    · rw [if_neg hqk] at hqe
      exfalso
      apply hqk
      rw [keyMatch_iff u f q, hqe]
      exact ⟨hu, hf⟩
  · rw [if_neg hany] at hp
    rcases List.mem_append.mp hp with hp1 | hp2
    · exact absurd
        (List.any_eq_true.mpr ⟨p, hp1, (keyMatch_iff u f p).mpr ⟨hu, hf⟩⟩) hany
    · rw [List.mem_singleton.mp hp2]

lemma setLastDailyDigest_allKey_other (store : List PrefDoc) (u f : Nat)
    (t : Int) (u2 f2 : Nat) (t2 : Int) (hne : ¬(u2 = u ∧ f2 = f))
    (h : allKeyDigestAt store u f t) :
    allKeyDigestAt (setLastDailyDigest store u2 f2 t2) u f t := by
  intro p hp hu hf
  unfold setLastDailyDigest at hp
  by_cases hany : store.any (keyMatch u2 f2) = true
  · rw [if_pos hany] at hp
    rcases List.mem_map.mp hp with ⟨q, hq, hqe⟩
    by_cases hqk : keyMatch u2 f2 q = true
    · rw [if_pos hqk] at hqe
      exfalso
      rcases (keyMatch_iff u2 f2 q).mp hqk with ⟨hq1, hq2⟩
      apply hne
      constructor
      · rw [← hq1, ← hu, ← hqe]
      · rw [← hq2, ← hf, ← hqe]
    · rw [if_neg hqk] at hqe
      rw [← hqe] at hu hf ⊢
      exact h q hq hu hf
  · rw [if_neg hany] at hp
    rcases List.mem_append.mp hp with hp1 | hp2
    · exact h p hp1 hu hf
    · exfalso
      rw [List.mem_singleton.mp hp2] at hu hf
      exact hne ⟨hu, hf⟩

lemma digestPass_preserves_allKey (chores : List Chore) (now : Int)
    (d : Nat × Nat → DispatchOutcome) (u f : Nat) :
    ∀ (docs : List PrefDoc) (store : List PrefDoc),
      allKeyDigestAt store u f now →
      allKeyDigestAt (runDigestPass chores now d store docs).1 u f now := by
  intro docs
  induction docs with
  | nil =>
    intro store h
    exact h
  | cons p rest ih =>
    intro store h
    rcases digestStep_cases chores now d store p with ⟨hst, _⟩ | heq
    · have hfst : (runDigestPass chores now d store (p :: rest)).1
          = (runDigestPass chores now d store rest).1 := by
        rw [runDigestPass_cons, hst]
      rw [hfst]
      exact ih store h
    · have h2 : allKeyDigestAt (setLastDailyDigest store p.user p.family now)
          u f now := by
        by_cases hpk : p.user = u ∧ p.family = f
        · rw [hpk.1, hpk.2]
          exact setLastDailyDigest_allKey store u f now
        · exact setLastDailyDigest_allKey_other store u f now p.user p.family now
            hpk h
      have hfst : (runDigestPass chores now d store (p :: rest)).1
          = (runDigestPass chores now d
              (setLastDailyDigest store p.user p.family now) rest).1 := by
        rw [runDigestPass_cons, heq]
      rw [hfst]
      exact ih _ h2

lemma digestPass_sent_stamped (chores : List Chore) (now : Int)
    (d : Nat × Nat → DispatchOutcome) (u f : Nat) :
    ∀ (docs : List PrefDoc) (store : List PrefDoc),
      1 ≤ (runDigestPass chores now d store docs).2.countP (digSentIn (keyEq u f)) →
      allKeyDigestAt (runDigestPass chores now d store docs).1 u f now := by
  intro docs
  induction docs with
  | nil =>
    intro store h
    simp [runDigestPass] at h
  | cons p rest ih =>
    intro store h
    rcases digestStep_cases chores now d store p with ⟨hst, hnos⟩ | heq
    · have hsnd : (runDigestPass chores now d store (p :: rest)).2
          = (processDigestStep chores now d store p).2
              ++ (runDigestPass chores now d store rest).2 := by
        rw [runDigestPass_cons, hst]
      have hfst : (runDigestPass chores now d store (p :: rest)).1
          = (runDigestPass chores now d store rest).1 := by
        rw [runDigestPass_cons, hst]
      rw [hsnd, List.countP_append,
        countP_digSent_zero _ _ hnos] at h
      rw [hfst]
      exact ih store (by simpa using h)
    · have hpass : runDigestPass chores now d store (p :: rest)
          = ((runDigestPass chores now d
                (setLastDailyDigest store p.user p.family now) rest).1,
             DigEvent.sent p.user p.family now (buildDigest chores p.family now)
               :: (runDigestPass chores now d
                    (setLastDailyDigest store p.user p.family now) rest).2) := by
        rw [runDigestPass_cons, heq]
        rfl
      rw [hpass] at h ⊢
      by_cases hpk : p.user = u ∧ p.family = f
      · have h2 : allKeyDigestAt (setLastDailyDigest store p.user p.family now)
            u f now := by
          rw [hpk.1, hpk.2]
          exact setLastDailyDigest_allKey store u f now
        exact digestPass_preserves_allKey chores now d u f rest _ h2
      · have hkf : keyEq u f p.user p.family = false := by
          refine Bool.eq_false_iff.mpr ?_
          intro hh
          apply hpk
          simpa [keyEq] using hh
        have hstep : digSentIn (keyEq u f)
            (DigEvent.sent p.user p.family now (buildDigest chores p.family now))
              = false := by
          simpa [digSentIn] using hkf
        rw [List.countP_cons, hstep] at h
        simp only [Bool.false_eq_true, if_false, Nat.add_zero] at h
        exact ih _ h

lemma setLastDailyDigest_nodupKeys (store : List PrefDoc) (u f : Nat) (t : Int)
    (h : NodupKeys store) : NodupKeys (setLastDailyDigest store u f t) := by
  unfold setLastDailyDigest
  by_cases hany : store.any (keyMatch u f) = true
  · rw [if_pos hany]
    unfold NodupKeys at h ⊢
    have hmap : (store.map (fun p =>
        if keyMatch u f p then { p with lastDailyDigest := some t } else p)).map
          (fun p => (p.user, p.family))
        = store.map (fun p => (p.user, p.family)) := by
      rw [List.map_map]
      refine List.map_congr_left ?_
      intro p hp
      by_cases hpk : keyMatch u f p = true <;> simp [hpk]
    rw [hmap]
    exact h
  · rw [if_neg hany]
    unfold NodupKeys at h ⊢
    rw [List.map_append]
    refine List.Nodup.append h (by simp) ?_
    intro x hx hx2
    simp only [List.map_cons, List.map_nil, List.mem_singleton] at hx2
    rcases List.mem_map.mp hx with ⟨q, hq, hqe⟩
    apply hany
    refine List.any_eq_true.mpr ⟨q, hq, ?_⟩
    rw [keyMatch_iff]
    have : (q.user, q.family) = (u, f) := by
      rw [hqe, hx2]
      rfl
    exact ⟨congrArg Prod.fst this, congrArg Prod.snd this⟩

lemma digestPass_nodupKeys (chores : List Chore) (now : Int)
    (d : Nat × Nat → DispatchOutcome) :
    ∀ (docs : List PrefDoc) (store : List PrefDoc),
      NodupKeys store → NodupKeys (runDigestPass chores now d store docs).1 := by
  intro docs
  induction docs with
  | nil =>
    intro store h
    exact h
  | cons p rest ih =>
    intro store h
    rcases digestStep_cases chores now d store p with ⟨hst, _⟩ | heq
    · have hfst : (runDigestPass chores now d store (p :: rest)).1
          = (runDigestPass chores now d store rest).1 := by
        rw [runDigestPass_cons, hst]
      rw [hfst]
      exact ih store h
    · have hfst : (runDigestPass chores now d store (p :: rest)).1
          = (runDigestPass chores now d
              (setLastDailyDigest store p.user p.family now) rest).1 := by
        rw [runDigestPass_cons, heq]
      rw [hfst]
      exact ih _ (setLastDailyDigest_nodupKeys store p.user p.family now h)

lemma nodupKeys_countP (u f : Nat) :
    ∀ (store : List PrefDoc), NodupKeys store →
      store.countP (keyMatch u f) ≤ 1 := by
  intro store
  induction store with
  | nil =>
    intro h
    simp
  | cons p rest ih =>
    intro h
    unfold NodupKeys at h
    rw [List.map_cons, List.nodup_cons] at h
    rw [List.countP_cons]
    by_cases hpk : keyMatch u f p = true
    · have h0 : rest.countP (keyMatch u f) = 0 := by
        rw [List.countP_eq_zero]
        intro q hq hqk
        apply h.1
        rw [List.mem_map]
        refine ⟨q, hq, ?_⟩
        rcases (keyMatch_iff u f q).mp hqk with ⟨hq1, hq2⟩
        rcases (keyMatch_iff u f p).mp hpk with ⟨hp1, hp2⟩
        rw [hq1, hq2, hp1, hp2]
      simp [h0, hpk]
    · have hle := ih h.2
      simp only [if_neg hpk]
      omega

/-- An already-overdue chore (due one hour before the evaluation instant
`now = 0`), with assignee and pending status. -/
def choreOverdueOneHour : Chore :=
  { id := 1
  , family := 1
  , assignedTo := some 1
  , dueDate := some (-3600000)
  , status := .pending
  , completedAt := none
  , verifiedAt := none
  , points := 0
  , photoPending := false }

/-- C1: the claim states that `processDueReminders` selects every task with an
assignee, pending/in-progress status and `dueDate <= now + 24h`, including
already-overdue tasks.  Counterexample: at `now = 0`, a pending chore with an
assignee due one hour in the past satisfies every condition of the claim
(`dueDate < now` and `dueDate ≤ now + 24h`), yet the candidate query
(`dueDate: { $gte: now, $lte: oneDayFromNow }`) selects nothing. -/
theorem C1_counterexample :
    choreOverdueOneHour.assignedTo.isSome = true
    ∧ choreOverdueOneHour.status = ChoreStatus.pending
    ∧ choreOverdueOneHour.dueDate = some (-3600000)
    ∧ ((-3600000 : Int) < 0 ∧ (-3600000 : Int) ≤ 0 + msPerDay)
    ∧ findChoresDueForReminders [choreOverdueOneHour] 0 = [] := by
  exact ⟨rfl, rfl, rfl, by decide, rfl⟩

/-- C1 (amended): `processDueReminders` selects as reminder candidates exactly
the tasks that have an assignee, status pending or in-progress, and a due date
with `now ≤ dueDate ≤ now + 24h`; already-overdue tasks (`dueDate < now`) are
not selected. -/
theorem C1_candidate_selection (chores : List Chore) (now : Int) (c : Chore) :
    c ∈ findChoresDueForReminders chores now
      ↔ c ∈ chores ∧ c.assignedTo.isSome = true
          ∧ (c.status = ChoreStatus.pending ∨ c.status = ChoreStatus.in_progress)
          ∧ ∃ d, c.dueDate = some d ∧ now ≤ d ∧ d ≤ now + msPerDay := by
  rw [findChoresDueForReminders, List.mem_filter]
  rcases hd : c.dueDate with _ | dd
  · simp [hd]
  · simp [hd, isCandidateStatus]
    tauto

/-- C4: for a candidate with enabled preferences and outside quiet hours, the
trigger decision of `processDueReminders` fires exactly when `daysUntilDue`
is at most zero, or equals a configured positive `firstReminder` or
`secondReminder` lead time, or the final-reminder hour window applies with a
positive `finalReminder`. -/
theorem C4_trigger_decision (due now first second finalH : Int) :
    shouldSendReminder due now first second finalH = true
      ↔ (daysUntilDue due now ≤ 0
         ∨ (daysUntilDue due now = first ∧ 0 < first)
         ∨ (daysUntilDue due now = second ∧ 0 < second)
         ∨ (daysUntilDue due now = 0 ∧ due - now ≤ finalH * msPerHour
             ∧ 0 < finalH)) := by
  unfold shouldSendReminder
  by_cases h1 : daysUntilDue due now ≤ 0
  · rw [if_pos h1]
    simp only [true_iff]
    exact Or.inl h1
  · rw [if_neg h1]
    by_cases h2 : daysUntilDue due now = first
    · rw [if_pos h2]
      simp only [true_iff]
      right; left
      exact ⟨h2, by omega⟩
    · rw [if_neg h2]
      by_cases h3 : daysUntilDue due now = second
      · rw [if_pos h3]
        simp only [true_iff]
        right; right; left
        exact ⟨h3, by omega⟩
      · rw [if_neg h3]
        have h4 : ¬(daysUntilDue due now = 0 ∧ due - now ≤ finalH * msPerHour) := by
          rintro ⟨hz, _⟩
          omega
        rw [if_neg h4]
        simp only [Bool.false_eq_true, false_iff]
        rintro (h | ⟨he, hp⟩ | ⟨he, hp⟩ | ⟨hz, _, _⟩) <;> omega

/-- C8: a chore selected by the candidate query has `dueDate` in
`[now, now + 24h]`, so `daysUntilDue` is 0 (exactly when `dueDate = now`) or
1; a first/second lead time of 2 or more days never equals `daysUntilDue`,
and the equality branches can fire only for a tier configured to exactly 1
day. -/
theorem C8_selected_days_until_due (due now : Int)
    (h1 : now ≤ due) (h2 : due ≤ now + msPerDay) :
    (daysUntilDue due now = 0 ∨ daysUntilDue due now = 1)
    ∧ (daysUntilDue due now = 0 ↔ due = now)
    ∧ (∀ r : Int, 2 ≤ r → daysUntilDue due now ≠ r)
    ∧ (∀ f : Int, ¬(daysUntilDue due now ≤ 0) → daysUntilDue due now = f →
        f = 1) := by
  unfold msPerDay at h2
  unfold daysUntilDue ceilDiv msPerDay
  refine ⟨by omega, by omega, fun r hr => by omega, fun f hf he => by omega⟩

/-- Witness for C8 at a concrete selected chore: due one hour from `now = 0`,
inside the look-ahead window, giving `daysUntilDue = 1`. -/
theorem C8_selected_days_until_due_witness :
    ((0 : Int) ≤ 3600000) ∧ ((3600000 : Int) ≤ 0 + msPerDay)
    ∧ (daysUntilDue 3600000 0 = 0 ∨ daysUntilDue 3600000 0 = 1) := by
  exact ⟨by decide, by decide,
    (C8_selected_days_until_due 3600000 0 (by decide) (by decide)).1⟩

/-- A chore saved with status verified but no completion timestamp. -/
def choreVerifiedNoCompletion : Chore :=
  { id := 2
  , family := 1
  , assignedTo := none
  , dueDate := none
  , status := .verified
  , completedAt := none
  , verifiedAt := none
  , points := 0
  , photoPending := false }

/-- C9: the claim states that every save preserves the timestamp invariant.
Counterexample: saving a chore whose status was modified to verified with
both timestamps unset runs the pre-save hook, which fills `verifiedAt` but
not `completedAt`, storing a chore with status verified and `completedAt`
unset — violating "completedAt set iff status ∈ {completed, verified}" and
"verifiedAt only if completedAt is set". -/
theorem C9_counterexample :
    (choreSavePreHook choreVerifiedNoCompletion true 0).status
        = ChoreStatus.verified
    ∧ (choreSavePreHook choreVerifiedNoCompletion true 0).completedAt = none
    ∧ (choreSavePreHook choreVerifiedNoCompletion true 0).verifiedAt = some 0
    ∧ choreInvariant (choreSavePreHook choreVerifiedNoCompletion true 0)
        = false := by
  exact ⟨rfl, rfl, rfl, rfl⟩

/-- C9 (amended): the pre-save hook fills `completedAt` when a save modifies
status to completed with `completedAt` unset, and `verifiedAt` when a save
modifies status to verified with `verifiedAt` unset; a save whose document
already satisfies the timestamp invariant at hook entry and whose existing
`completedAt` is not in the future still satisfies it after the hook — but
the hook does not establish the invariant for saves that enter it violated
(for example status verified with `completedAt` unset). -/
theorem C9_presave_hook (c : Chore) (m : Bool) (now : Int) :
    (m = true → c.status = ChoreStatus.completed → c.completedAt = none →
       (choreSavePreHook c m now).completedAt = some now)
    ∧ (m = true → c.status = ChoreStatus.verified → c.verifiedAt = none →
       (choreSavePreHook c m now).verifiedAt = some now)
    ∧ (choreInvariant c = true → (∀ t, c.completedAt = some t → t ≤ now) →
       choreInvariant (choreSavePreHook c m now) = true) := by
  unfold choreSavePreHook choreInvariant
  rcases c with ⟨cid, fam, asg, dd, st, ca, va, pts, pp⟩
  cases m <;> cases st <;> rcases ca with _ | t1 <;> rcases va with _ | t2 <;>
    simp_all

/-- Witness for C9 (amended): a save modifying status to completed with no
completion timestamp gets `completedAt := now`, and a save of an
invariant-satisfying verified chore (completed at 3, verified now at 5)
keeps the invariant. -/
theorem C9_presave_hook_witness :
    (choreSavePreHook
        { id := 3, family := 1, assignedTo := none, dueDate := none
        , status := .completed, completedAt := none, verifiedAt := none
        , points := 0, photoPending := false } true 5).completedAt = some 5
    ∧ choreInvariant (choreSavePreHook
        { id := 4, family := 1, assignedTo := none, dueDate := none
        , status := .verified, completedAt := some 3, verifiedAt := none
        , points := 0, photoPending := false } true 5) = true := by
  constructor
  · exact (C9_presave_hook
      { id := 3, family := 1, assignedTo := none, dueDate := none
      , status := .completed, completedAt := none, verifiedAt := none
      , points := 0, photoPending := false } true 5).1 rfl rfl rfl
  · exact (C9_presave_hook
      { id := 4, family := 1, assignedTo := none, dueDate := none
      , status := .verified, completedAt := some 3, verifiedAt := none
      , points := 0, photoPending := false } true 5).2.2 (by decide)
      (by intro t ht; injection ht with he; omega)

lemma foldl_points (l : List Chore) (a : Int) :
    l.foldl (fun total c => total + c.points) a = a + (l.map Chore.points).sum := by
  induction l generalizing a with
  | nil => simp
  | cons c rest ih =>
    rw [List.foldl_cons, ih, List.map_cons, List.sum_cons]
    ring

/-- The spec's digest scenario: three completed chores worth 5, 10 and 15
points (completed inside the trailing window) and two overdue chores, all in
family 1, evaluated two hours into calendar day 10. -/
def digestScenarioNow : Int := 10 * 86400000 + 7200000

/-- The chores of the digest scenario. -/
def digestScenarioChores : List Chore :=
  [ { id := 11, family := 1, assignedTo := some 1
    , dueDate := some (9 * 86400000), status := .completed
    , completedAt := some (10 * 86400000 - 3600000), verifiedAt := none
    , points := 5, photoPending := false }
  , { id := 12, family := 1, assignedTo := some 2
    , dueDate := some (9 * 86400000), status := .verified
    , completedAt := some (10 * 86400000 - 7200000)
    , verifiedAt := some (10 * 86400000 - 3600000)
    , points := 10, photoPending := false }
  , { id := 13, family := 1, assignedTo := some 1
    , dueDate := some (9 * 86400000), status := .completed
    , completedAt := some (9 * 86400000 + 3600000), verifiedAt := none
    , points := 15, photoPending := false }
  , { id := 14, family := 1, assignedTo := some 2
    , dueDate := some (10 * 86400000), status := .pending
    , completedAt := none, verifiedAt := none
    , points := 3, photoPending := false }
  , { id := 15, family := 1, assignedTo := some 1
    , dueDate := some (8 * 86400000), status := .in_progress
    , completedAt := none, verifiedAt := none
    , points := 4, photoPending := false } ]

/-- C6: the digest computed by `processDailyDigests` collects exactly the
family's completed/verified chores with `completedAt` in
`[yesterday 00:00, today 23:59:59.999]`, exactly the family's chores with
`dueDate` strictly before now and status pending/in-progress with no lower
time bound, counts the family's photo-verification-pending chores
independently of the window, and sums the point values of the completed set;
on the spec's scenario (completed points 5, 10, 15 and two overdue chores)
the payload has `totalPointsEarned = 30` and `overdueChores.length = 2`. -/
theorem C6_digest_payload (chores : List Chore) (fam : Nat) (now : Int) :
    (∀ c, c ∈ (buildDigest chores fam now).completedChores
      ↔ c ∈ chores ∧ c.family = fam
          ∧ (c.status = ChoreStatus.completed ∨ c.status = ChoreStatus.verified)
          ∧ ∃ t, c.completedAt = some t
              ∧ yesterdayStart now ≤ t ∧ t ≤ todayEnd now)
    ∧ (∀ c, c ∈ (buildDigest chores fam now).overdueChores
      ↔ c ∈ chores ∧ c.family = fam
          ∧ (c.status = ChoreStatus.pending ∨ c.status = ChoreStatus.in_progress)
          ∧ ∃ d, c.dueDate = some d ∧ d < now)
    ∧ (buildDigest chores fam now).pendingApprovals
        = chores.countP (fun c => c.family == fam && c.photoPending)
    ∧ (buildDigest chores fam now).totalPointsEarned
        = ((buildDigest chores fam now).completedChores.map Chore.points).sum
    ∧ ((buildDigest digestScenarioChores 1 digestScenarioNow).totalPointsEarned
          = 30
        ∧ (buildDigest digestScenarioChores 1 digestScenarioNow).overdueChores.length
          = 2) := by
  refine ⟨?_, ?_, ?_, ?_, ⟨rfl, rfl⟩⟩
  · intro c
    show c ∈ completedInWindow chores fam now ↔ _
    rw [completedInWindow, List.mem_filter]
    rcases hc : c.completedAt with _ | t
    · simp [hc]
    · simp [hc]
      tauto
  · intro c
    show c ∈ overdueForDigest chores fam now ↔ _
    rw [overdueForDigest, List.mem_filter]
    rcases hd : c.dueDate with _ | dd
    · simp [hd, isCandidateStatus]
    · simp [hd, isCandidateStatus]
      tauto
  · show pendingApprovalCount chores fam = _
    rw [pendingApprovalCount]
    exact (List.countP_eq_length_filter _ _).symm
  · show (completedInWindow chores fam now).foldl
        (fun total c => total + c.points) 0 = _
    rw [foldl_points, zero_add]
    rfl

/-- A pending chore due exactly at `now = 0`, assigned to user 1 in
family 10. -/
def choreFamilyA : Chore :=
  { id := 1
  , family := 10
  , assignedTo := some 1
  , dueDate := some 0
  , status := .pending
  , completedAt := none
  , verifiedAt := none
  , points := 0
  , photoPending := false }

/-- The same user's qualifying chore in a second family. -/
def choreFamilyB : Chore :=
  { choreFamilyA with id := 2, family := 20 }

/-- C2: the claim states at most one reminder notification per user per
rolling 12-hour window.  Counterexample: the rate limit is kept per
(user, family) preference record, so a user with qualifying chores in two
families receives two reminder dispatches in the same pass (zero hours
apart): with both records enabled and never notified, the pass emits two
`sent` events for user 1 at the same instant. -/
theorem C2_counterexample :
    (processDueReminders [choreFamilyA, choreFamilyB] 0
        (fun _ => DispatchOutcome.ok) [defaultPrefs 1 10, defaultPrefs 1 20]).2
      = [RemEvent.sent 1 1 10 0, RemEvent.sent 2 1 20 0]
    ∧ countRemSentUser 1 (processDueReminders [choreFamilyA, choreFamilyB] 0
        (fun _ => DispatchOutcome.ok) [defaultPrefs 1 10, defaultPrefs 1 20]).2
      = 2
    ∧ (0 : Int) - 0 < 12 * msPerHour := by
  exact ⟨rfl, rfl, by decide⟩

/-- C2 (amended): per (user, family) preference record, `processDueReminders`
dispatches at most one reminder per pass, and — before any dispatch — a
record whose `lastNotifications.choreReminder` is present and less than 12
hours old is skipped: no dispatch for that record in the whole pass and its
record is left unchanged, even when several tasks of that pair qualify. -/
theorem C2_rate_limit_per_pair (chores : List Chore) (now : Int)
    (d : Nat → DispatchOutcome) (store : List PrefDoc) (u f : Nat) :
    countRemSent u f (processDueReminders chores now d store).2 ≤ 1
    ∧ (∀ t, (getOrCreatePreferences store u f).lastChoreReminder = some t →
        now - t < 12 * msPerHour →
        countRemSent u f (processDueReminders chores now d store).2 = 0
        ∧ getOrCreatePreferences (processDueReminders chores now d store).1 u f
            = getOrCreatePreferences store u f) := by
  constructor
  · exact reminderPass_at_most_one now d u f _ store
  · intro t ht hlt
    have hblk : ∀ c ∈ findChoresDueForReminders chores now, ∀ u2,
        c.assignedTo = some u2 → keyEq u f u2 c.family = true →
        skipCond (getOrCreatePreferences store u2 c.family) now := by
      intro c hc u2 hu2 hk
      have hk2 : u2 = u ∧ c.family = f := by simpa [keyEq] using hk
      rw [hk2.1, hk2.2]
      exact Or.inr (Or.inr ⟨t, ht, hlt⟩)
    have hm := reminderPass_blocked now d (keyEq u f)
      (findChoresDueForReminders chores now) store hblk
    exact ⟨hm.1, hm.2 u f (by simp [keyEq])⟩

/-- User 1's family-10 record, last reminded six hours before `now = 0`. -/
def rateLimitedStore : List PrefDoc :=
  [{ defaultPrefs 1 10 with lastChoreReminder := some (-21600000) }]

/-- Witness for C2 (amended): with a reminder sent six hours ago, the pass
dispatches nothing for the pair and leaves the record untouched. -/
theorem C2_rate_limit_per_pair_witness :
    countRemSent 1 10 (processDueReminders [choreFamilyA] 0
        (fun _ => DispatchOutcome.ok) rateLimitedStore).2 = 0
    ∧ getOrCreatePreferences (processDueReminders [choreFamilyA] 0
        (fun _ => DispatchOutcome.ok) rateLimitedStore).1 1 10
      = getOrCreatePreferences rateLimitedStore 1 10 :=
  (C2_rate_limit_per_pair [choreFamilyA] 0 (fun _ => DispatchOutcome.ok)
      rateLimitedStore 1 10).2 (-21600000) rfl (by decide)

/-- C7: when the quiet-hours check reports the evaluation instant inside the
user's quiet-hours window (on every record consulted for that user), neither
`processDueReminders` nor `processDailyDigests` dispatches anything for that
user in the pass, and none of the user's `lastNotifications` timestamps is
updated; the passes produce only their event logs and the updated store —
nothing is queued for later. -/
theorem C7_quiet_hours (chores : List Chore) (now : Int)
    (dR : Nat → DispatchOutcome) (dD : Nat × Nat → DispatchOutcome)
    (store : List PrefDoc) (u : Nat)
    (hrem : ∀ c ∈ chores, c.assignedTo = some u →
        isNotificationAllowed (getOrCreatePreferences store u c.family) now
          = false)
    (hdig : ∀ p ∈ store, p.user = u → isNotificationAllowed p now = false) :
    countRemSentUser u (processDueReminders chores now dR store).2 = 0
    ∧ (∀ f, getOrCreatePreferences (processDueReminders chores now dR store).1 u f
          = getOrCreatePreferences store u f)
    ∧ countDigSentUser u (processDailyDigests chores now dD store).2 = 0
    ∧ (∀ f, getOrCreatePreferences (processDailyDigests chores now dD store).1 u f
          = getOrCreatePreferences store u f) := by
  have hblkR : ∀ c ∈ findChoresDueForReminders chores now, ∀ u2,
      c.assignedTo = some u2 → userEq u u2 c.family = true →
      skipCond (getOrCreatePreferences store u2 c.family) now := by
    intro c hc u2 hu2 hk
    have hu2e : u2 = u := by simpa [userEq] using hk
    subst hu2e
    have hcm : c ∈ chores := (List.mem_filter.mp hc).1
    exact Or.inr (Or.inl (hrem c hcm hu2))
  have hR := reminderPass_blocked now dR (userEq u)
    (findChoresDueForReminders chores now) store hblkR
  have hblkD : ∀ p ∈ findDigestCandidates store now,
      userEq u p.user p.family = true → digSkip now p := by
    intro p hp hk
    have hue : p.user = u := by simpa [userEq] using hk
    have hpm : p ∈ store := (List.mem_filter.mp hp).1
    exact Or.inr (hdig p hpm hue)
  have hD := digestPass_blocked chores now dD (userEq u)
    (findDigestCandidates store now) store hblkD
  exact ⟨hR.1, fun f => hR.2 u f (by simp [userEq]),
         hD.1, fun f => hD.2 u f (by simp [userEq])⟩

/-- User 1's family-10 record with quiet hours covering the whole day. -/
def quietStore : List PrefDoc :=
  [{ defaultPrefs 1 10 with quietStart := 0, quietEnd := 1440 }]

/-- Witness for C7: with an all-day quiet window, a qualifying due chore
produces no reminder dispatch and no digest dispatch for the user. -/
theorem C7_quiet_hours_witness :
    countRemSentUser 1 (processDueReminders [choreFamilyA] 0
        (fun _ => DispatchOutcome.ok) quietStore).2 = 0
    ∧ countDigSentUser 1 (processDailyDigests [choreFamilyA] 0
        (fun _ => DispatchOutcome.ok) quietStore).2 = 0 := by
  have h := C7_quiet_hours [choreFamilyA] 0 (fun _ => DispatchOutcome.ok)
    (fun _ => DispatchOutcome.ok) quietStore 1 (by decide) (by decide)
  exact ⟨h.1, h.2.2.1⟩

lemma nodupKeys_filter (φ : PrefDoc → Bool) (store : List PrefDoc)
    (h : NodupKeys store) : NodupKeys (store.filter φ) :=
  List.Nodup.sublist (List.Sublist.map _ (List.filter_sublist store)) h

/-- C5: in both batch loops, a successful dispatch updates the corresponding
`lastNotifications` timestamp to now; a reported dispatch failure or a thrown
per-item error leaves the whole preference store untouched; and a candidate
whose processing left the store unchanged does not affect the processing of
the remaining candidates — the pass continues and appends their events. -/
theorem C5_dispatch_bookkeeping (now : Int) (d : Nat → DispatchOutcome)
    (dD : Nat × Nat → DispatchOutcome) (chores : List Chore)
    (store : List PrefDoc) (c : Chore) (rest : List Chore)
    (p : PrefDoc) (drest : List PrefDoc) :
    (∀ cid u2 f2 t,
        RemEvent.sent cid u2 f2 t ∈ (processChoreStep now d store c).2 →
        t = now
        ∧ (getOrCreatePreferences (processChoreStep now d store c).1 u2
            f2).lastChoreReminder = some now)
    ∧ (∀ cid u2 f2,
        RemEvent.sendFailed cid u2 f2 ∈ (processChoreStep now d store c).2 →
        (processChoreStep now d store c).1 = store)
    ∧ (∀ cid, RemEvent.itemError cid ∈ (processChoreStep now d store c).2 →
        (processChoreStep now d store c).1 = store)
    ∧ ((processChoreStep now d store c).1 = store →
        runReminderPass now d store (c :: rest)
          = ((runReminderPass now d store rest).1,
             (processChoreStep now d store c).2
               ++ (runReminderPass now d store rest).2))
    ∧ (∀ u2 f2 t pay,
        DigEvent.sent u2 f2 t pay ∈ (processDigestStep chores now dD store p).2 →
        t = now
        ∧ (getOrCreatePreferences (processDigestStep chores now dD store p).1 u2
            f2).lastDailyDigest = some now)
    ∧ (∀ u2 f2,
        DigEvent.sendFailed u2 f2 ∈ (processDigestStep chores now dD store p).2 →
        (processDigestStep chores now dD store p).1 = store)
    ∧ (∀ u2 f2,
        DigEvent.itemError u2 f2 ∈ (processDigestStep chores now dD store p).2 →
        (processDigestStep chores now dD store p).1 = store)
    ∧ ((processDigestStep chores now dD store p).1 = store →
        runDigestPass chores now dD store (p :: drest)
          = ((runDigestPass chores now dD store drest).1,
             (processDigestStep chores now dD store p).2
               ++ (runDigestPass chores now dD store drest).2)) := by
  refine ⟨?_, ?_, ?_, ?_, ?_, ?_, ?_, ?_⟩
  · intro cid u2 f2 t hmem
    rcases reminderStep_cases now d store c with ⟨hst, hnos⟩ | ⟨u, hu, heq⟩
    · exact absurd hmem (hnos cid u2 f2 t)
    · rw [heq] at hmem ⊢
      have he := List.mem_singleton.mp hmem
      injection he with e1 e2 e3 e4
      subst e2
      subst e3
      subst e4
      exact ⟨rfl, by rw [getOrCreate_setLastChoreReminder_same]⟩
  · intro cid u2 f2 hmem
    rcases reminderStep_cases now d store c with ⟨hst, hnos⟩ | ⟨u, hu, heq⟩
    · exact hst
    · rw [heq] at hmem
      simp at hmem
  · intro cid hmem
    rcases reminderStep_cases now d store c with ⟨hst, hnos⟩ | ⟨u, hu, heq⟩
    · exact hst
    · rw [heq] at hmem
      simp at hmem
  · intro hst
    rw [runReminderPass_cons, hst]
  · intro u2 f2 t pay hmem
    rcases digestStep_cases chores now dD store p with ⟨hst, hnos⟩ | heq
    · exact absurd hmem (hnos u2 f2 t pay)
    · rw [heq] at hmem ⊢
      have he := List.mem_singleton.mp hmem
      injection he with e1 e2 e3 e4
      subst e1
      subst e2
      subst e3
      exact ⟨rfl, by rw [getOrCreate_setLastDailyDigest_same]⟩
  · intro u2 f2 hmem
    rcases digestStep_cases chores now dD store p with ⟨hst, hnos⟩ | heq
    · exact hst
    · rw [heq] at hmem
      simp at hmem
  · intro u2 f2 hmem
    rcases digestStep_cases chores now dD store p with ⟨hst, hnos⟩ | heq
    · exact hst
    · rw [heq] at hmem
      simp at hmem
  · intro hst
    rw [runDigestPass_cons, hst]

/-- Witness for C5: in a two-chore pass where the dispatcher fails for the
first chore (users 1 and 2 in families 10 and 20), the failing chore leaves
the store unchanged and the second candidate is still processed and
dispatched. -/
theorem C5_dispatch_bookkeeping_witness :
    (processChoreStep 0
        (fun cid => if cid == 1 then DispatchOutcome.failed else DispatchOutcome.ok)
        [defaultPrefs 1 10, defaultPrefs 2 20] choreFamilyA).1
      = [defaultPrefs 1 10, defaultPrefs 2 20]
    ∧ RemEvent.sendFailed 1 1 10 ∈ (processChoreStep 0
        (fun cid => if cid == 1 then DispatchOutcome.failed else DispatchOutcome.ok)
        [defaultPrefs 1 10, defaultPrefs 2 20] choreFamilyA).2 := by
  constructor
  · exact (C5_dispatch_bookkeeping 0
      (fun cid => if cid == 1 then DispatchOutcome.failed else DispatchOutcome.ok)
      (fun _ => DispatchOutcome.ok) []
      [defaultPrefs 1 10, defaultPrefs 2 20] choreFamilyA [] (defaultPrefs 1 10)
      []).2.1 1 1 10 (by decide)
  · decide

/-- C3: per (user, family) preference record — with one record per pair — the
daily digest is idempotent across two invocations on the same calendar day
(in particular twice within the same minute): at most one digest is
dispatched for the pair over both passes, and when the record's
`lastNotifications.dailyDigest` already falls on the same calendar date as
the first invocation (compared by calendar day, not timestamp difference),
the first pass dispatches nothing for the pair. -/
theorem C3_digest_idempotent (chores : List Chore) (store : List PrefDoc)
    (t1 t2 : Int) (d1 d2 : Nat × Nat → DispatchOutcome) (u f : Nat)
    (hnd : NodupKeys store) (hday : dayOf t1 = dayOf t2) :
    countDigSent u f (processDailyDigests chores t1 d1 store).2
      + countDigSent u f (processDailyDigests chores t2 d2
          (processDailyDigests chores t1 d1 store).1).2 ≤ 1
    ∧ ((∀ p ∈ store, p.user = u → p.family = f →
          ∃ t0, p.lastDailyDigest = some t0 ∧ dayOf t0 = dayOf t1) →
        countDigSent u f (processDailyDigests chores t1 d1 store).2 = 0) := by
  constructor
  · by_cases h0 : countDigSent u f (processDailyDigests chores t1 d1 store).2 = 0
    · rw [h0, Nat.zero_add]
      have hc2 := digestPass_count_le chores t2 d2 (keyEq u f)
        (findDigestCandidates (processDailyDigests chores t1 d1 store).1 t2)
        (processDailyDigests chores t1 d1 store).1
      have hnd1 : NodupKeys (processDailyDigests chores t1 d1 store).1 :=
        digestPass_nodupKeys chores t1 d1 (findDigestCandidates store t1) store hnd
      have hle := nodupKeys_countP u f
        (findDigestCandidates (processDailyDigests chores t1 d1 store).1 t2)
        (nodupKeys_filter _ _ hnd1)
      exact le_trans hc2 hle
    · have h1 : 1 ≤ countDigSent u f (processDailyDigests chores t1 d1 store).2 :=
        Nat.one_le_iff_ne_zero.mpr h0
      have hstamp := digestPass_sent_stamped chores t1 d1 u f
        (findDigestCandidates store t1) store h1
      have hblk2 : ∀ p ∈ findDigestCandidates
          (processDailyDigests chores t1 d1 store).1 t2,
          keyEq u f p.user p.family = true → digSkip t2 p := by
        intro p hp hk
        have hk2 : p.user = u ∧ p.family = f := by simpa [keyEq] using hk
        have hpm : p ∈ (processDailyDigests chores t1 d1 store).1 :=
          (List.mem_filter.mp hp).1
        exact Or.inl ⟨t1, hstamp p hpm hk2.1 hk2.2, hday⟩
      have hz := (digestPass_blocked chores t2 d2 (keyEq u f)
        (findDigestCandidates (processDailyDigests chores t1 d1 store).1 t2)
        (processDailyDigests chores t1 d1 store).1 hblk2).1
      have hc1 := digestPass_count_le chores t1 d1 (keyEq u f)
        (findDigestCandidates store t1) store
      have hle := nodupKeys_countP u f (findDigestCandidates store t1)
        (nodupKeys_filter _ _ hnd)
      have : countDigSent u f (processDailyDigests chores t2 d2
          (processDailyDigests chores t1 d1 store).1).2 = 0 := hz
      rw [this]
      exact le_trans hc1 hle
  · intro hsame
    have hblk : ∀ p ∈ findDigestCandidates store t1,
        keyEq u f p.user p.family = true → digSkip t1 p := by
      intro p hp hk
      have hk2 : p.user = u ∧ p.family = f := by simpa [keyEq] using hk
      rcases hsame p ((List.mem_filter.mp hp).1) hk2.1 hk2.2 with ⟨t0, ht0, hd0⟩
      exact Or.inl ⟨t0, ht0, hd0⟩
    exact (digestPass_blocked chores t1 d1 (keyEq u f)
      (findDigestCandidates store t1) store hblk).1

/-- User 1's family-10 record subscribed to the digest at 00:00. -/
def digestOnceStore : List PrefDoc :=
  [{ defaultPrefs 1 10 with dailyDigest := true, dailyDigestTime := 0 }]

/-- Witness for C3: invoking the digest pass twice at the same instant (day 5,
00:00) dispatches exactly once — the first pass sends, the second pass is
suppressed by the calendar-day guard. -/
theorem C3_digest_idempotent_witness :
    countDigSent 1 10 (processDailyDigests [] 432000000
        (fun _ => DispatchOutcome.ok) digestOnceStore).2 = 1
    ∧ countDigSent 1 10 (processDailyDigests [] 432000000
        (fun _ => DispatchOutcome.ok)
        (processDailyDigests [] 432000000
          (fun _ => DispatchOutcome.ok) digestOnceStore).1).2 = 0
    ∧ countDigSent 1 10 (processDailyDigests [] 432000000
        (fun _ => DispatchOutcome.ok) digestOnceStore).2
      + countDigSent 1 10 (processDailyDigests [] 432000000
          (fun _ => DispatchOutcome.ok)
          (processDailyDigests [] 432000000
            (fun _ => DispatchOutcome.ok) digestOnceStore).1).2 ≤ 1 := by
  refine ⟨by decide, by decide, ?_⟩
  exact (C3_digest_idempotent [] digestOnceStore 432000000 432000000
    (fun _ => DispatchOutcome.ok) (fun _ => DispatchOutcome.ok) 1 10
    (by unfold NodupKeys; decide) rfl).1

/-- C10: the top-level catch of each entry point turns any data-access
failure into an aborted pass — the store is unchanged and no event is
produced; `getReminderStats` returns `null` exactly on a fatal query failure
and otherwise returns the pure counts of the stats queries.  No failure
escapes to the caller: every entry point is a total function. -/
theorem C10_top_level_error_handling (err : String) (chores : List Chore)
    (now : Int) (dR : Nat → DispatchOutcome) (dD : Nat × Nat → DispatchOutcome)
    (store : List PrefDoc) (famQ : Option Nat) :
    processDueRemindersTop (Except.error err) chores now dR store = (store, [])
    ∧ processDailyDigestsTop (Except.error err) chores now dD store = (store, [])
    ∧ getReminderStats (Except.error err) chores store now famQ = none
    ∧ (getReminderStats (Except.ok ()) chores store now famQ).isSome = true
    ∧ (∃ s, getReminderStats (Except.ok ()) chores store now famQ = some s
        ∧ s.choresDueToday = chores.countP (fun c =>
            famMatch famQ c.family
            && (match c.dueDate with
                | some dd => decide (now ≤ dd) && decide (dd < now + msPerDay)
                | none => false)
            && isCandidateStatus c.status)
        ∧ s.overdueChores = chores.countP (fun c =>
            famMatch famQ c.family
            && (match c.dueDate with
                | some dd => decide (dd < now)
                | none => false)
            && isCandidateStatus c.status)
        ∧ s.usersWithRemindersEnabled = store.countP (fun p =>
            famMatch famQ p.family && p.emailEnabled && p.choreReminders)
        ∧ s.usersWithDailyDigest = store.countP (fun p =>
            famMatch famQ p.family && p.emailEnabled && p.dailyDigest)) := by
  refine ⟨rfl, rfl, rfl, rfl, ⟨_, rfl, ?_, ?_, ?_, ?_⟩⟩
  all_goals
    rw [List.countP_eq_length_filter]

end ReminderScheduler
